import Mathlib

/-!
Verification development for `caikit/core/data_model/dataobject.py`.

The Python module is shallowly embedded below: Python dicts over string keys
become association lists (insertion-ordered, first-match lookup, in-place
value update on reassignment), raised exceptions become `Except` errors, and
the decorator / converter / oneof-`__init__` logic is translated function by
function from the source.
-/

namespace CaikitDataobject

/-! ### Python dict semantics over association lists -/

/-- First-match lookup in an insertion-ordered association list
(Python `d.get(k)` / `d[k]`). -/
def lookupAssoc {α : Type} : List (String × α) → String → Option α
  | [], _ => none
  | (k', v) :: rest, k => if k' = k then some v else lookupAssoc rest k

/-- Python `d[k] = v`: replace the value at the first occurrence of `k`,
keeping its position, or append `(k, v)` when `k` is absent. -/
def updateAssoc {α : Type} : List (String × α) → String → α → List (String × α)
  | [], k, v => [(k, v)]
  | (k', v') :: rest, k, v =>
    if k' = k then (k', v) :: rest else (k', v') :: updateAssoc rest k v

/-- Python `d.update(es)` and the tail of a dict literal `{**d, **es}`:
entries of `es` are assigned one by one, so on a key conflict the entry of
`es` (the later one) wins. -/
def pyDictUpdate {α : Type} (m es : List (String × α)) : List (String × α) :=
  es.foldl (fun acc p => updateAssoc acc p.1 p.2) m

/-! ### Scalar type map (`DATAOBJECT_PY_TO_PROTO_TYPES`, `_dataobject_to_proto`)

Python types and proto wire kinds are represented by their names. -/

/-- The caikit-specific entries of the `DATAOBJECT_PY_TO_PROTO_TYPES` dict
literal, in source order (the part before `**PY_TO_PROTO_TYPES`). -/
def dataobjectExtensionEntries : List (String × String) :=
  [("JsonDict", "Struct"),
   ("np.int32", "TYPE_INT32"),
   ("np.int64", "TYPE_INT64"),
   ("np.uint32", "TYPE_UINT32"),
   ("np.uint64", "TYPE_UINT64"),
   ("np.float32", "TYPE_FLOAT"),
   ("np.float64", "TYPE_DOUBLE")]

/-- Modelled from the spec: the built-in scalar-type-to-wire-kind map
`PY_TO_PROTO_TYPES` of the external `py_to_proto` collaborator library
(the "Scalar Type Map" leaf: text, integers, floating point, booleans,
bytes), which is not part of this repository's source. -/
def PY_TO_PROTO_TYPES : List (String × String) :=
  [("str", "TYPE_STRING"),
   ("int", "TYPE_INT64"),
   ("float", "TYPE_DOUBLE"),
   ("bool", "TYPE_BOOL"),
   ("bytes", "TYPE_BYTES")]

/-- `DATAOBJECT_PY_TO_PROTO_TYPES = {JsonDict: ..., np...: ..., **PY_TO_PROTO_TYPES}`:
a dict literal starting from the caikit extension entries with the library
entries spliced in afterwards (so the library entries would win a key
conflict). -/
def DATAOBJECT_PY_TO_PROTO_TYPES : List (String × String) :=
  pyDictUpdate dataobjectExtensionEntries PY_TO_PROTO_TYPES

/-- `_dataobject_to_proto`: `kwargs.setdefault("type_mapping", DATAOBJECT_PY_TO_PROTO_TYPES)`.
The effective type mapping handed to the converter is the caller's mapping
when one was supplied, and the module-level map otherwise. -/
def dataobjectToProtoTypeMapping (callerTypeMapping : Option (List (String × String))) :
    List (String × String) :=
  callerTypeMapping.getD DATAOBJECT_PY_TO_PROTO_TYPES

/-! ### Schema entry point (`dataobject` decorator) -/

/-- A candidate class, characterized by the capabilities the decorator
checks: `issubclass(cls, (DataObjectBase, Enum))`. -/
structure Candidate where
  isDataObjectBaseSubclass : Bool
  isEnumSubclass : Bool
deriving DecidableEq

/-- Errors raised by the module's entry points. -/
inductive DataobjectError
  | validationError (logCode : String)
  | typeError (msg : String)
deriving DecidableEq

/-- Fixed root namespace `CAIKIT_DATA_MODEL`. -/
def CAIKIT_DATA_MODEL : String := "caikit_data_model"

/-- The inner `decorator(cls)` of `dataobject`: `error.value_check` fails with
a validation error unless `issubclass(cls, (DataObjectBase, Enum))`;
otherwise the class itself is returned. -/
def dataobjectDecorator (package : String) (cls : Candidate) :
    Except DataobjectError Candidate :=
  if cls.isDataObjectBaseSubclass || cls.isEnumSubclass then .ok cls
  else .error (.validationError "COR95184230E")

/-- A positional argument of the `dataobject(*args, **kwargs)` entry point:
either a (callable) class or a package string. -/
inductive PyArg (C : Type)
  | cls (c : C)
  | str (s : String)

/-- The package-resolution dispatch of `dataobject(*args, **kwargs)`:
bare application uses `CAIKIT_DATA_MODEL` (after `assert not kwargs`);
a positional string is the package (conflicting with a `package` keyword);
otherwise `kwargs.get("package", CAIKIT_DATA_MODEL)`. -/
def dataobjectPackage {C : Type} (args : List (PyArg C)) (kwPackage : Option String) :
    Except DataobjectError String :=
  match args with
  | .cls _ :: _ =>
    if kwPackage.isSome then .error (.typeError "This shouldn't happen!")
    else .ok CAIKIT_DATA_MODEL
  | .str s :: _ =>
    if kwPackage.isSome then .error (.typeError "Got multiple values for argument 'package'")
    else .ok s
  | [] => .ok (kwPackage.getD CAIKIT_DATA_MODEL)

/-! ### Renderer stub (`render_dataobject_protos`) -/

/-- `render_dataobject_protos(interfaces_dir)`: the body is commented out and
the function unconditionally raises; the result also reports the list of
files written (always empty). -/
def render_dataobject_protos (interfacesDir : String)
    (autoGenProtoClasses : List String) : Except String (List String) :=
  .error "render_dataobject_protos not yet implemented"

/-! ### Optional-field resolver (`_DataobjectConverter`) -/

/-- A Python type annotation as the resolver observes it: either a plain
(non-`Union`) type, or `typing.Union[...]` with the (flattened) argument
type names; `Optional[X]` is `Union[X, NoneType]`. -/
inductive FieldType
  | plain (name : String)
  | union (argNames : List String)
deriving DecidableEq

/-- `_DataobjectConverter._is_python_optional`: when `get_origin(entry) is
Union` it returns `type(None) in get_args(entry)`, otherwise it falls off
the end and returns `None`. -/
def isPythonOptional : FieldType → Option Bool
  | .union args => some (decide ("NoneType" ∈ args))
  | .plain _ => none

/-- A record type as seen by `get_optional_field_names`: the keys of its
`__user_defined_defaults__` attribute and its ordered `__dataclass_fields__`
(name and annotated type). -/
structure RecordEntry where
  userDefinedDefaults : List String
  fields : List (String × FieldType)

/-- `_DataobjectConverter.get_optional_field_names`: start from the
user-defined-default keys, then append every field whose name is not yet
listed and for which `_is_python_optional(field.type) is not None`. -/
def get_optional_field_names (entry : RecordEntry) : List String :=
  entry.fields.foldl
    (fun acc p =>
      if p.1 ∉ acc ∧ (isPythonOptional p.2).isSome then acc ++ [p.1] else acc)
    entry.userDefinedDefaults

/-! ### Union router (`_make_oneof_init`)

A materialized class is characterized by the three attributes the patched
`__init__` consults: the ordered keys of `cls.__dataclass_fields__`, the
member-field-to-group map `cls._fields_to_oneof`, and the group-to-members
map `cls._fields_oneofs_map`. Construction-time values are opaque (`V`). -/

/-- Index of the first occurrence (Python `list.index`; the caller guards
membership so the `ValueError` case is modelled separately). -/
def idxOf : List String → String → Nat
  | [], _ => 0
  | x :: xs, y => if x = y then 0 else idxOf xs y + 1

structure OneofClass where
  dataclassFields : List String
  fieldsToOneofs : List (String × String)
  oneofsToFields : List (String × List String)

/-- Exceptions the patched `__init__` can raise. The first two are the
construction-time `ConflictError`s of the spec; the others model Python
`list.index` / dict-subscript failures and errors from the wrapped
dataclass `__init__`. -/
inductive InitError
  | conflictingUnionArgs (oneofName fieldName : String)
  | multipleUnionKwargs (oneofName : String)
  | valueError (name : String)
  | keyError (name : String)
  | typeError (msg : String)
deriving DecidableEq

/-- Both construction-time `ConflictError` kinds of spec §7. -/
def InitError.isUnionConflict : InitError → Bool
  | .conflictingUnionArgs _ _ => true
  | .multipleUnionKwargs _ => true
  | _ => false

/-- The mutable locals of the kwarg-rewriting loop: `new_kwargs`,
`to_remove`, `which_oneof`. -/
structure InitAcc (V : Type) where
  newKwargs : List (String × V)
  toRemove : List String
  whichOneof : List (String × String)

variable {V : Type}

/-- `field_name` names a member of union group `g` as the walrus test
`if oneof_name := fields_to_oneofs.get(field_name):` sees it (a present,
truthy — i.e. nonempty — group name). -/
def mapsTo (cls : OneofClass) (fieldName g : String) : Prop :=
  lookupAssoc cls.fieldsToOneofs fieldName = some g ∧ g ≠ ""

instance (cls : OneofClass) (f g : String) : Decidable (mapsTo cls f g) := by
  unfold mapsTo; infer_instance

/-- The `for field_name, val in kwargs.items():` loop of the patched
`__init__`.  `allKwargs` is the full (unmutated) kwargs dict consulted by
the membership test `field in kwargs`; deletion of the routed keys happens
only after the loop. -/
def oneofKwargLoop (cls : OneofClass) (numArgs : Nat) (allKwargs : List (String × V)) :
    List (String × V) → InitAcc V → Except InitError (InitAcc V)
  | [], acc => .ok acc
  | (fieldName, val) :: rest, acc =>
    match lookupAssoc cls.fieldsToOneofs fieldName with
    | none => oneofKwargLoop cls numArgs allKwargs rest acc
    | some oneofName =>
      if oneofName = "" then oneofKwargLoop cls numArgs allKwargs rest acc
      else if oneofName ∉ cls.dataclassFields then .error (.valueError oneofName)
      else if idxOf cls.dataclassFields oneofName < numArgs then
        .error (.conflictingUnionArgs oneofName fieldName)
      else
        match lookupAssoc cls.oneofsToFields oneofName with
        | none => .error (.keyError oneofName)
        | some members =>
          if ((oneofName :: members).filter (fun x => decide (x ≠ fieldName))).any
              (fun x => (lookupAssoc allKwargs x).isSome) then
            .error (.multipleUnionKwargs oneofName)
          else
            oneofKwargLoop cls numArgs allKwargs rest
              { newKwargs := updateAssoc acc.newKwargs oneofName val
                toRemove := acc.toRemove ++ [fieldName]
                whichOneof := updateAssoc acc.whichOneof oneofName fieldName }

/-- The accumulator change a single successful loop iteration makes. -/
def stepAcc (cls : OneofClass) (acc : InitAcc V) (fieldName : String) (val : V) : InitAcc V :=
  match lookupAssoc cls.fieldsToOneofs fieldName with
  | none => acc
  | some oneofName =>
    if oneofName = "" then acc
    else
      { newKwargs := updateAssoc acc.newKwargs oneofName val
        toRemove := acc.toRemove ++ [fieldName]
        whichOneof := updateAssoc acc.whichOneof oneofName fieldName }

/-- The value the underlying defaulted dataclass `__init__` assigns to field
`f`: the positional argument at the field's declared index when one was
passed, else the keyword argument, else (`none`) the field's declared
default. -/
def initFieldValue (cls : OneofClass) (args : List V) (kwargs : List (String × V))
    (f : String) : Option V :=
  if h : idxOf cls.dataclassFields f < args.length then some (args.get ⟨_, h⟩)
  else lookupAssoc kwargs f

/-- Modelled from the spec: the wrapped `original_init` is the defaulted
dataclass `__init__` generated outside this module; per §4.4 it binds
positional arguments to declared field order and keyword arguments by field
name, rejecting surplus positional arguments, unknown keyword names, and a
positional/keyword double assignment. -/
def originalInit (cls : OneofClass) (args : List V) (kwargs : List (String × V)) :
    Except InitError (List (String × Option V)) :=
  if args.length > cls.dataclassFields.length then
    .error (.typeError "too many positional arguments")
  else if kwargs.any (fun p => decide (p.1 ∉ cls.dataclassFields)) then
    .error (.typeError "unexpected keyword argument")
  else if (cls.dataclassFields.take args.length).any
      (fun f => (lookupAssoc kwargs f).isSome) then
    .error (.typeError "multiple values for argument")
  else
    .ok (cls.dataclassFields.map fun f => (f, initFieldValue cls args kwargs f))

/-- A constructed instance: the per-field storage produced by the wrapped
init, and the `_WHICH_ONEOF_ATTR` discriminant dict set afterwards. -/
structure PyInstance (V : Type) where
  fields : List (String × Option V)
  whichOneof : List (String × String)

/-- The patched `__init__` produced by `_make_oneof_init`: run the rewriting
loop, delete the routed member keys from kwargs, merge in `new_kwargs`
(`kwargs.update(new_kwargs)`), call the wrapped init, then record
`which_oneof` on the instance. -/
def oneofInit (cls : OneofClass) (args : List V) (kwargs : List (String × V)) :
    Except InitError (PyInstance V) :=
  match oneofKwargLoop cls args.length kwargs kwargs ⟨[], [], []⟩ with
  | .error e => .error e
  | .ok acc =>
    let kwargs2 :=
      pyDictUpdate (kwargs.filter fun p => decide (p.1 ∉ acc.toRemove)) acc.newKwargs
    match originalInit cls args kwargs2 with
    | .error e => .error e
    | .ok flds => .ok { fields := flds, whichOneof := acc.whichOneof }

/-- Structural invariants every materialized type with union groups has:
each group slot named by `_fields_to_oneof` is a declared dataclass field,
has a member list in `_fields_oneofs_map` that lists the member, and a
member field is never named like its own group slot. -/
structure WF (cls : OneofClass) : Prop where
  slotIsField : ∀ {f g}, lookupAssoc cls.fieldsToOneofs f = some g →
    g ∈ cls.dataclassFields
  hasMembers : ∀ {f g}, lookupAssoc cls.fieldsToOneofs f = some g →
    ∃ ms, lookupAssoc cls.oneofsToFields g = some ms
  memberListed : ∀ {f g ms}, lookupAssoc cls.fieldsToOneofs f = some g →
    lookupAssoc cls.oneofsToFields g = some ms → f ∈ ms
  memberNotSlot : ∀ {f g}, lookupAssoc cls.fieldsToOneofs f = some g → f ≠ g

/-- Executable check implying `WF`. -/
def wfCheck (cls : OneofClass) : Bool :=
  cls.fieldsToOneofs.all fun p =>
    decide (p.2 ∈ cls.dataclassFields) && decide (p.1 ≠ p.2) &&
      (match lookupAssoc cls.oneofsToFields p.2 with
       | some ms => decide (p.1 ∈ ms)
       | none => false)

/-! ### Concrete witness data -/

/-- A concrete materialized class: one dataclass slot `g` backing the union
group `g` with member fields `a` and `b`. -/
def clsW : OneofClass :=
  { dataclassFields := ["g"]
    fieldsToOneofs := [("a", "g"), ("b", "g")]
    oneofsToFields := [("g", ["a", "b"])] }

/-- The instance produced by `oneofInit clsW [] [("a", 1)]`. -/
def instW : PyInstance Nat :=
  { fields := [("g", some 1)], whichOneof := [("g", "a")] }


/-! ### Association-list lemmas -/

theorem lookupAssoc_updateAssoc {α : Type} (m : List (String × α)) (k : String) (v : α)
    (k' : String) :
    lookupAssoc (updateAssoc m k v) k' = if k = k' then some v else lookupAssoc m k' := by
  induction m with
  | nil =>
    by_cases h : k = k' <;> simp [updateAssoc, lookupAssoc, h]
  | cons p rest ih =>
    obtain ⟨k0, v0⟩ := p
    by_cases h0 : k0 = k
    · subst h0
      by_cases h : k0 = k' <;> simp [updateAssoc, lookupAssoc, h]
    · by_cases h : k0 = k'
      · subst h
        have hkk : ¬ k = k0 := fun hc => h0 hc.symm
        simp [updateAssoc, lookupAssoc, h0, hkk]
      · simp [updateAssoc, lookupAssoc, h0, h, ih]

theorem lookupAssoc_eq_none_of_not_mem_keys {α : Type} (m : List (String × α)) (k : String)
    (h : k ∉ m.map Prod.fst) : lookupAssoc m k = none := by
  induction m with
  | nil => simp [lookupAssoc]
  | cons p rest ih =>
    obtain ⟨k0, v0⟩ := p
    simp only [List.map_cons, List.mem_cons] at h
    push_neg at h
    have hne : k0 ≠ k := fun hc => h.1 hc.symm
    simp [lookupAssoc, hne, ih h.2]

theorem mem_of_lookupAssoc_eq_some {α : Type} (m : List (String × α)) (k : String) (v : α)
    (h : lookupAssoc m k = some v) : (k, v) ∈ m := by
  induction m with
  | nil => simp [lookupAssoc] at h
  | cons p rest ih =>
    obtain ⟨k0, v0⟩ := p
    by_cases h0 : k0 = k
    · subst h0
      simp [lookupAssoc] at h
      simp [h]
    · simp [lookupAssoc, h0] at h
      exact List.mem_cons_of_mem _ (ih h)

theorem lookupAssoc_isSome_of_mem {α : Type} (m : List (String × α)) (k : String) (v : α)
    (h : (k, v) ∈ m) : (lookupAssoc m k).isSome = true := by
  induction m with
  | nil => simp at h
  | cons p rest ih =>
    obtain ⟨k0, v0⟩ := p
    rcases List.mem_cons.mp h with heq | hmem
    · obtain ⟨h1, h2⟩ := Prod.mk.injEq .. ▸ heq
      simp [lookupAssoc, h1.symm]
    · by_cases h0 : k0 = k
      · simp [lookupAssoc, h0]
      · simp [lookupAssoc, h0, ih hmem]

theorem keys_updateAssoc {α : Type} (m : List (String × α)) (k : String) (v : α) :
    (updateAssoc m k v).map Prod.fst =
      if k ∈ m.map Prod.fst then m.map Prod.fst else m.map Prod.fst ++ [k] := by
  induction m with
  | nil => simp [updateAssoc]
  | cons p rest ih =>
    obtain ⟨k0, v0⟩ := p
    by_cases h0 : k0 = k
    · subst h0
      simp [updateAssoc]
    · have hne : ¬ k = k0 := fun hc => h0 hc.symm
      by_cases hmem : k ∈ rest.map Prod.fst <;>
        simp [updateAssoc, h0, hne, hmem, ih]

theorem keys_nodup_updateAssoc {α : Type} (m : List (String × α)) (k : String) (v : α)
    (h : (m.map Prod.fst).Nodup) : ((updateAssoc m k v).map Prod.fst).Nodup := by
  rw [keys_updateAssoc]
  by_cases hmem : k ∈ m.map Prod.fst
  · simpa [hmem] using h
  · simp only [hmem, if_false]
    exact List.Nodup.append h (List.nodup_singleton k) (by simpa using hmem)

theorem lookupAssoc_pyDictUpdate_not_mem {α : Type} (es m : List (String × α)) (k : String)
    (h : k ∉ es.map Prod.fst) : lookupAssoc (pyDictUpdate m es) k = lookupAssoc m k := by
  induction es generalizing m with
  | nil => simp [pyDictUpdate]
  | cons p rest ih =>
    obtain ⟨k0, v0⟩ := p
    simp only [List.map_cons, List.mem_cons] at h
    push_neg at h
    have step : pyDictUpdate m ((k0, v0) :: rest) = pyDictUpdate (updateAssoc m k0 v0) rest := by
      simp [pyDictUpdate]
    rw [step, ih _ h.2, lookupAssoc_updateAssoc, if_neg (fun hc => h.1 hc.symm)]

theorem lookupAssoc_pyDictUpdate_mem {α : Type} (es m : List (String × α)) (k : String) (v : α)
    (hnd : (es.map Prod.fst).Nodup) (h : lookupAssoc es k = some v) :
    lookupAssoc (pyDictUpdate m es) k = some v := by
  induction es generalizing m with
  | nil => simp [lookupAssoc] at h
  | cons p rest ih =>
    obtain ⟨k0, v0⟩ := p
    simp only [List.map_cons, List.nodup_cons] at hnd
    have step : pyDictUpdate m ((k0, v0) :: rest) = pyDictUpdate (updateAssoc m k0 v0) rest := by
      simp [pyDictUpdate]
    by_cases h0 : k0 = k
    · subst h0
      rw [show lookupAssoc ((k0, v0) :: rest) k0 = some v0 from by simp [lookupAssoc]] at h
      rw [Option.some.injEq] at h
      rw [step, lookupAssoc_pyDictUpdate_not_mem _ _ _ hnd.1, lookupAssoc_updateAssoc]
      simp [h]
    · simp only [lookupAssoc, if_neg h0] at h
      rw [step, ih _ hnd.2 h]

theorem WF_of_wfCheck (cls : OneofClass) (h : wfCheck cls = true) : WF cls := by
  rw [wfCheck, List.all_eq_true] at h
  have key : ∀ {f g}, lookupAssoc cls.fieldsToOneofs f = some g →
      g ∈ cls.dataclassFields ∧ f ≠ g ∧
        ∃ ms, lookupAssoc cls.oneofsToFields g = some ms ∧ f ∈ ms := by
    intro f g hl
    have hp := h _ (mem_of_lookupAssoc_eq_some _ _ _ hl)
    simp only [Bool.and_eq_true, decide_eq_true_eq] at hp
    obtain ⟨⟨h1, h2⟩, h3⟩ := hp
    refine ⟨h1, h2, ?_⟩
    revert h3
    cases hms : lookupAssoc cls.oneofsToFields g with
    | none => simp
    | some ms => exact fun h3 => ⟨ms, rfl, by simpa using h3⟩
  constructor
  · intro f g hl
    exact (key hl).1
  · intro f g hl
    obtain ⟨ms, hms, _⟩ := (key hl).2.2
    exact ⟨ms, hms⟩
  · intro f g ms hl hms
    obtain ⟨ms', hms', hin⟩ := (key hl).2.2
    rw [hms] at hms'
    obtain rfl : ms = ms' := Option.some.inj hms'
    exact hin
  · intro f g hl
    exact (key hl).2.1

theorem clsW_wf : WF clsW := WF_of_wfCheck clsW (by decide)

/-! ### Lemmas about the kwarg-rewriting loop -/

theorem loop_cons_ok {cls : OneofClass} {n : Nat} {all rest : List (String × V)}
    {f : String} {v : V} {acc acc' : InitAcc V}
    (h : oneofKwargLoop cls n all ((f, v) :: rest) acc = .ok acc') :
    oneofKwargLoop cls n all rest (stepAcc cls acc f v) = .ok acc' := by
  simp only [oneofKwargLoop] at h
  cases hl : lookupAssoc cls.fieldsToOneofs f with
  | none =>
    simp only [hl] at h
    simpa only [stepAcc, hl] using h
  | some g =>
    simp only [hl] at h
    by_cases hg : g = ""
    · rw [if_pos hg] at h
      simpa only [stepAcc, hl, if_pos hg] using h
    · rw [if_neg hg] at h
      by_cases hmem : g ∉ cls.dataclassFields
      · rw [if_pos hmem] at h
        exact absurd h (by simp)
      · rw [if_neg hmem] at h
        by_cases hidx : idxOf cls.dataclassFields g < n
        · rw [if_pos hidx] at h
          exact absurd h (by simp)
        · rw [if_neg hidx] at h
          cases hms : lookupAssoc cls.oneofsToFields g with
          | none =>
            simp only [hms] at h
            exact absurd h (by simp)
          | some ms =>
            simp only [hms] at h
            by_cases hany : ((g :: ms).filter fun x => decide (x ≠ f)).any
                (fun x => (lookupAssoc all x).isSome) = true
            · rw [if_pos hany] at h
              exact absurd h (by simp)
            · rw [if_neg hany] at h
              simpa only [stepAcc, hl, if_neg hg] using h

theorem loop_skip {cls : OneofClass} {n : Nat} {all : List (String × V)}
    (k1 rest : List (String × V)) (acc : InitAcc V)
    (h1 : ∀ p ∈ k1, ∀ H, ¬ mapsTo cls p.1 H) :
    oneofKwargLoop cls n all (k1 ++ rest) acc = oneofKwargLoop cls n all rest acc := by
  induction k1 generalizing acc with
  | nil => rfl
  | cons p k1' ih =>
    obtain ⟨f, v⟩ := p
    have htail : ∀ p ∈ k1', ∀ H, ¬ mapsTo cls p.1 H :=
      fun q hq H => h1 q (List.mem_cons_of_mem _ hq) H
    rw [List.cons_append]
    cases hl : lookupAssoc cls.fieldsToOneofs f with
    | none =>
      simp only [oneofKwargLoop, hl]
      exact ih _ htail
    | some g =>
      have hg : g = "" := by
        by_contra hg
        exact h1 (f, v) (List.mem_cons_self _ _) g ⟨hl, hg⟩
      simp only [oneofKwargLoop, hl, hg, if_pos rfl]
      exact ih _ htail

theorem loop_head_pos_conflict {cls : OneofClass} (hwf : WF cls) {n : Nat}
    {all : List (String × V)} (f : String) (v : V) (G : String)
    (rest : List (String × V)) (acc : InitAcc V)
    (hf : mapsTo cls f G) (hidx : idxOf cls.dataclassFields G < n) :
    oneofKwargLoop cls n all ((f, v) :: rest) acc = .error (.conflictingUnionArgs G f) := by
  have hmem : ¬ G ∉ cls.dataclassFields := fun hc => hc (hwf.slotIsField hf.1)
  simp only [oneofKwargLoop, hf.1]
  rw [if_neg hf.2, if_neg hmem, if_pos hidx]

theorem loop_head_multiple_conflict {cls : OneofClass} (hwf : WF cls) {n : Nat}
    {all : List (String × V)} (f : String) (v : V) (G : String)
    (rest : List (String × V)) (acc : InitAcc V)
    (hf : mapsTo cls f G) (hidx : ¬ idxOf cls.dataclassFields G < n)
    (x : String) (hxf : x ≠ f)
    (hx : x = G ∨ ∃ ms, lookupAssoc cls.oneofsToFields G = some ms ∧ x ∈ ms)
    (hxk : (lookupAssoc all x).isSome = true) :
    oneofKwargLoop cls n all ((f, v) :: rest) acc = .error (.multipleUnionKwargs G) := by
  have hmem : ¬ G ∉ cls.dataclassFields := fun hc => hc (hwf.slotIsField hf.1)
  obtain ⟨ms, hms⟩ := hwf.hasMembers hf.1
  have hxin : x ∈ G :: ms := by
    rcases hx with rfl | ⟨ms', hms', hin⟩
    · exact List.mem_cons_self _ _
    · rw [hms] at hms'
      obtain rfl : ms = ms' := Option.some.inj hms'
      exact List.mem_cons_of_mem _ hin
  have hany : ((G :: ms).filter fun x => decide (x ≠ f)).any
      (fun x => (lookupAssoc all x).isSome) = true := by
    rw [List.any_eq_true]
    refine ⟨x, ?_, hxk⟩
    rw [List.mem_filter]
    exact ⟨hxin, by simpa using hxf⟩
  simp only [oneofKwargLoop, hf.1]
  rw [if_neg hf.2, if_neg hmem, if_neg hidx]
  simp only [hms]
  rw [if_pos hany]

theorem loop_error_of_conflicted_member {cls : OneofClass} (hwf : WF cls) {n : Nat}
    {allKwargs : List (String × V)} :
    ∀ (rest : List (String × V)) (acc : InitAcc V) (f : String) (v : V) (G : String),
    (f, v) ∈ rest → mapsTo cls f G →
    (idxOf cls.dataclassFields G < n ∨
      ∃ x, x ≠ f ∧ (x = G ∨ ∃ ms, lookupAssoc cls.oneofsToFields G = some ms ∧ x ∈ ms) ∧
        (lookupAssoc allKwargs x).isSome = true) →
    ∃ e, oneofKwargLoop cls n allKwargs rest acc = .error e ∧ e.isUnionConflict = true
  | [], _, _, _, _, hmem, _, _ => absurd hmem (List.not_mem_nil _)
  | (f0, v0) :: rest, acc, f, v, G, hmem, hf, hbad => by
    by_cases hhead : f0 = f
    · subst hhead
      by_cases hidx : idxOf cls.dataclassFields G < n
      · exact ⟨_, loop_head_pos_conflict hwf _ v0 _ _ _ hf hidx, rfl⟩
      · rcases hbad with hbad | ⟨x, hxf, hx, hxk⟩
        · exact absurd hbad hidx
        · exact ⟨_, loop_head_multiple_conflict hwf _ v0 _ _ _ hf hidx x hxf hx hxk, rfl⟩
    · have htail : (f, v) ∈ rest := by
        rcases List.mem_cons.mp hmem with heq | h
        · cases heq
          exact absurd rfl hhead
        · exact h
      cases hl : lookupAssoc cls.fieldsToOneofs f0 with
      | none =>
        have hrec := loop_error_of_conflicted_member hwf rest acc f v G htail hf hbad
        simpa only [oneofKwargLoop, hl] using hrec
      | some g =>
        by_cases hg : g = ""
        · have hrec := loop_error_of_conflicted_member hwf rest acc f v G htail hf hbad
          simpa only [oneofKwargLoop, hl, hg, if_pos rfl] using hrec
        · have hgmem : ¬ g ∉ cls.dataclassFields := fun hc => hc (hwf.slotIsField hl)
          by_cases hidx : idxOf cls.dataclassFields g < n
          · refine ⟨.conflictingUnionArgs g f0, ?_, rfl⟩
            simp only [oneofKwargLoop, hl]
            rw [if_neg hg, if_neg hgmem, if_pos hidx]
          · obtain ⟨ms, hms⟩ := hwf.hasMembers hl
            by_cases hany : ((g :: ms).filter fun x => decide (x ≠ f0)).any
                (fun x => (lookupAssoc allKwargs x).isSome) = true
            · refine ⟨.multipleUnionKwargs g, ?_, rfl⟩
              simp only [oneofKwargLoop, hl]
              rw [if_neg hg, if_neg hgmem, if_neg hidx]
              simp only [hms]
              rw [if_pos hany]
            · have hrec := loop_error_of_conflicted_member hwf rest
                { newKwargs := updateAssoc acc.newKwargs g v0
                  toRemove := acc.toRemove ++ [f0]
                  whichOneof := updateAssoc acc.whichOneof g f0 } f v G htail hf hbad
              obtain ⟨e, he, hconf⟩ := hrec
              refine ⟨e, ?_, hconf⟩
              simp only [oneofKwargLoop, hl]
              rw [if_neg hg, if_neg hgmem, if_neg hidx]
              simp only [hms]
              rw [if_neg hany]
              exact he

theorem stepAcc_preserve {cls : OneofClass} {G : String} (acc : InitAcc V)
    (f : String) (v : V) (h : ¬ mapsTo cls f G) :
    lookupAssoc (stepAcc cls acc f v).whichOneof G = lookupAssoc acc.whichOneof G ∧
    lookupAssoc (stepAcc cls acc f v).newKwargs G = lookupAssoc acc.newKwargs G := by
  cases hl : lookupAssoc cls.fieldsToOneofs f with
  | none => simp [stepAcc, hl]
  | some g =>
    by_cases hg : g = ""
    · simp [stepAcc, hl, hg]
    · have hne : g ≠ G := fun hc => h (hc ▸ ⟨hl, hg⟩)
      simp [stepAcc, hl, hg, lookupAssoc_updateAssoc, hne]

theorem stepAcc_nodup {cls : OneofClass} (acc : InitAcc V) (f : String) (v : V)
    (h : ((acc.newKwargs.map Prod.fst).Nodup)) :
    (((stepAcc cls acc f v).newKwargs.map Prod.fst).Nodup) := by
  cases hl : lookupAssoc cls.fieldsToOneofs f with
  | none => simpa only [stepAcc, hl] using h
  | some g =>
    by_cases hg : g = ""
    · simpa only [stepAcc, hl, if_pos hg] using h
    · simp only [stepAcc, hl, if_neg hg]
      exact keys_nodup_updateAssoc _ _ _ h

theorem loop_preserve_of_no_member {cls : OneofClass} {n : Nat} {all : List (String × V)}
    {G : String} :
    ∀ (rest : List (String × V)) (acc acc' : InitAcc V),
    (∀ p ∈ rest, ¬ mapsTo cls p.1 G) →
    oneofKwargLoop cls n all rest acc = .ok acc' →
    lookupAssoc acc'.whichOneof G = lookupAssoc acc.whichOneof G ∧
    lookupAssoc acc'.newKwargs G = lookupAssoc acc.newKwargs G
  | [], acc, acc', _, h => by
    obtain rfl : acc = acc' := by simpa [oneofKwargLoop] using h
    exact ⟨rfl, rfl⟩
  | (f, v) :: rest, acc, acc', hno, h => by
    have h2 := loop_cons_ok h
    have ih := loop_preserve_of_no_member rest (stepAcc cls acc f v) acc'
      (fun p hp => hno p (List.mem_cons_of_mem _ hp)) h2
    have hs := stepAcc_preserve acc f v (hno (f, v) (List.mem_cons_self _ _))
    exact ⟨ih.1.trans hs.1, ih.2.trans hs.2⟩

theorem loop_routes_single_member {cls : OneofClass} {n : Nat} {all : List (String × V)}
    {G f : String} {v : V} (hf : mapsTo cls f G) :
    ∀ (r1 : List (String × V)) (r2 : List (String × V)) (acc acc' : InitAcc V),
    (∀ p ∈ r1, ¬ mapsTo cls p.1 G) → (∀ p ∈ r2, ¬ mapsTo cls p.1 G) →
    oneofKwargLoop cls n all (r1 ++ (f, v) :: r2) acc = .ok acc' →
    lookupAssoc acc'.whichOneof G = some f ∧ lookupAssoc acc'.newKwargs G = some v
  | [], r2, acc, acc', _, hr2, h => by
    rw [List.nil_append] at h
    have h2 := loop_cons_ok h
    have hpres := loop_preserve_of_no_member r2 (stepAcc cls acc f v) acc' hr2 h2
    have hstep : lookupAssoc (stepAcc cls acc f v).whichOneof G = some f ∧
        lookupAssoc (stepAcc cls acc f v).newKwargs G = some v := by
      simp [stepAcc, hf.1, hf.2, lookupAssoc_updateAssoc]
    exact ⟨hpres.1.trans hstep.1, hpres.2.trans hstep.2⟩
  | (f0, v0) :: r1, r2, acc, acc', hr1, hr2, h => by
    rw [List.cons_append] at h
    exact loop_routes_single_member hf r1 r2 (stepAcc cls acc f0 v0) acc'
      (fun p hp => hr1 p (List.mem_cons_of_mem _ hp)) hr2 (loop_cons_ok h)

theorem loop_newKwargs_nodup {cls : OneofClass} {n : Nat} {all : List (String × V)} :
    ∀ (rest : List (String × V)) (acc acc' : InitAcc V),
    ((acc.newKwargs.map Prod.fst).Nodup) →
    oneofKwargLoop cls n all rest acc = .ok acc' →
    ((acc'.newKwargs.map Prod.fst).Nodup)
  | [], acc, acc', hnd, h => by
    obtain rfl : acc = acc' := by simpa [oneofKwargLoop] using h
    exact hnd
  | (f, v) :: rest, acc, acc', hnd, h =>
    loop_newKwargs_nodup rest (stepAcc cls acc f v) acc'
      (stepAcc_nodup acc f v hnd) (loop_cons_ok h)

theorem loop_ok_member_checks {cls : OneofClass} {n : Nat} {all : List (String × V)} :
    ∀ (rest : List (String × V)) (acc acc' : InitAcc V) (f : String) (v : V) (G : String),
    oneofKwargLoop cls n all rest acc = .ok acc' →
    (f, v) ∈ rest → mapsTo cls f G →
    G ∈ cls.dataclassFields ∧ ¬ idxOf cls.dataclassFields G < n
  | [], _, _, _, _, _, _, hmem, _ => absurd hmem (List.not_mem_nil _)
  | (f0, v0) :: rest, acc, acc', f, v, G, h, hmem, hf => by
    by_cases hhead : f0 = f
    · subst hhead
      simp only [oneofKwargLoop, hf.1] at h
      rw [if_neg hf.2] at h
      by_cases hgmem : G ∉ cls.dataclassFields
      · rw [if_pos hgmem] at h
        exact absurd h (by simp)
      · rw [if_neg hgmem] at h
        by_cases hidx : idxOf cls.dataclassFields G < n
        · rw [if_pos hidx] at h
          exact absurd h (by simp)
        · exact ⟨not_not.mp hgmem, hidx⟩
    · have htail : (f, v) ∈ rest := by
        rcases List.mem_cons.mp hmem with heq | hmem'
        · cases heq
          exact absurd rfl hhead
        · exact hmem'
      exact loop_ok_member_checks rest (stepAcc cls acc f0 v0) acc' f v G
        (loop_cons_ok h) htail hf

/-! ### Lemmas about the wrapped init and `oneofInit` -/

theorem lookupAssoc_map_self {α : Type} (l : List String) (vf : String → α) (k : String) :
    lookupAssoc (l.map fun f => (f, vf f)) k = if k ∈ l then some (vf k) else none := by
  induction l with
  | nil => simp [lookupAssoc]
  | cons x rest ih =>
    by_cases hx : x = k
    · subst hx
      simp [lookupAssoc]
    · have hkx : ¬ k = x := fun hc => hx hc.symm
      simp only [List.map_cons, lookupAssoc, if_neg hx, ih, List.mem_cons, hkx, false_or]

theorem originalInit_ok_shape {cls : OneofClass} {args : List V}
    {kwargs : List (String × V)} {flds : List (String × Option V)}
    (h : originalInit cls args kwargs = .ok flds) :
    flds = cls.dataclassFields.map fun f => (f, initFieldValue cls args kwargs f) := by
  rw [originalInit] at h
  split at h
  · exact absurd h (by simp)
  · split at h
    · exact absurd h (by simp)
    · split at h
      · exact absurd h (by simp)
      · exact (Except.ok.inj h).symm

theorem oneofInit_error_of_loop {cls : OneofClass} {args : List V}
    {kwargs : List (String × V)} {e : InitError}
    (h : oneofKwargLoop cls args.length kwargs kwargs ⟨[], [], []⟩ = .error e) :
    oneofInit cls args kwargs = .error e := by
  rw [oneofInit, h]

theorem oneofInit_ok_parts {cls : OneofClass} {args : List V}
    {kwargs : List (String × V)} {inst : PyInstance V}
    (h : oneofInit cls args kwargs = .ok inst) :
    ∃ acc, oneofKwargLoop cls args.length kwargs kwargs ⟨[], [], []⟩ = .ok acc ∧
      originalInit cls args
        (pyDictUpdate (kwargs.filter fun p => decide (p.1 ∉ acc.toRemove)) acc.newKwargs)
        = .ok inst.fields ∧
      inst.whichOneof = acc.whichOneof := by
  rw [oneofInit] at h
  cases hloop : oneofKwargLoop cls args.length kwargs kwargs ⟨[], [], []⟩ with
  | error e =>
    simp only [hloop] at h
    exact absurd h (by simp)
  | ok acc =>
    simp only [hloop] at h
    cases horig : originalInit cls args
        (pyDictUpdate (kwargs.filter fun p => decide (p.1 ∉ acc.toRemove)) acc.newKwargs) with
    | error e =>
      simp only [horig] at h
      exact absurd h (by simp)
    | ok flds =>
      simp only [horig] at h
      obtain rfl : ({ fields := flds, whichOneof := acc.whichOneof } : PyInstance V) = inst :=
        Except.ok.inj h
      exact ⟨acc, rfl, horig, rfl⟩

/-! ### Claim theorems -/

/-- C1: for every materialized type with a union group, constructing with a
keyword argument naming a union-member field while the positional arguments
already cover the union group's slot (the positional count exceeds the
slot's index in declared field order) fails at construction time with a
construction-time ConflictError and no instance is produced; when that
keyword is the first union-member keyword of the call the error is exactly
the "conflicting union args" one. -/
theorem oneof_positional_kwarg_conflict (cls : OneofClass) (hwf : WF cls)
    (args : List V) (kwargs : List (String × V)) (f : String) (v : V) (G : String)
    (hmem : (f, v) ∈ kwargs) (hf : mapsTo cls f G)
    (hpos : idxOf cls.dataclassFields G < args.length) :
    (∃ e, oneofInit cls args kwargs = .error e ∧ e.isUnionConflict = true) ∧
    (∀ k1 k2, kwargs = k1 ++ (f, v) :: k2 →
      (∀ p ∈ k1, ∀ H, ¬ mapsTo cls p.1 H) →
      oneofInit cls args kwargs = .error (.conflictingUnionArgs G f)) := by
  constructor
  · obtain ⟨e, he, hc⟩ := loop_error_of_conflicted_member hwf kwargs ⟨[], [], []⟩ f v G
      hmem hf (Or.inl hpos)
    exact ⟨e, oneofInit_error_of_loop he, hc⟩
  · intro k1 k2 hdec hno
    subst hdec
    refine oneofInit_error_of_loop ?_
    rw [loop_skip k1 _ _ hno]
    exact loop_head_pos_conflict hwf f v G k2 _ hf hpos

/-- Witness for C1: class `clsW`, one positional argument filling slot `g`,
and the member keyword `a`. -/
theorem oneof_positional_kwarg_conflict_witness :
    oneofInit clsW [(0 : Nat)] [("a", (1 : Nat))] =
      .error (.conflictingUnionArgs "g" "a") :=
  (oneof_positional_kwarg_conflict clsW clsW_wf [(0 : Nat)] [("a", (1 : Nat))] "a" 1 "g"
    (by decide) (by decide) (by decide)).2 [] [] rfl (by simp)

/-- C2: for every materialized type with a union group, constructing with two
keyword arguments naming distinct member fields of the same union group
fails at construction time with a construction-time ConflictError and no
instance is produced; when the first of them is the first union-member
keyword of the call and the group slot is not filled positionally, the
error is exactly the "multiple values for union group" one. -/
theorem oneof_multiple_member_kwargs_conflict (cls : OneofClass) (hwf : WF cls)
    (args : List V) (kwargs : List (String × V)) (f1 : String) (v1 : V)
    (f2 : String) (v2 : V) (G : String)
    (h1 : (f1, v1) ∈ kwargs) (h2 : (f2, v2) ∈ kwargs) (hne : f1 ≠ f2)
    (hm1 : mapsTo cls f1 G) (hm2 : mapsTo cls f2 G) :
    (∃ e, oneofInit cls args kwargs = .error e ∧ e.isUnionConflict = true) ∧
    (∀ k1 k2, kwargs = k1 ++ (f1, v1) :: k2 →
      (∀ p ∈ k1, ∀ H, ¬ mapsTo cls p.1 H) →
      ¬ idxOf cls.dataclassFields G < args.length →
      oneofInit cls args kwargs = .error (.multipleUnionKwargs G)) := by
  obtain ⟨ms, hms⟩ := hwf.hasMembers hm1.1
  have hx : f2 = G ∨ ∃ ms', lookupAssoc cls.oneofsToFields G = some ms' ∧ f2 ∈ ms' :=
    Or.inr ⟨ms, hms, hwf.memberListed hm2.1 hms⟩
  constructor
  · obtain ⟨e, he, hc⟩ := loop_error_of_conflicted_member hwf kwargs ⟨[], [], []⟩ f1 v1 G
      h1 hm1 (Or.inr ⟨f2, hne.symm, hx, lookupAssoc_isSome_of_mem _ _ _ h2⟩)
    exact ⟨e, oneofInit_error_of_loop he, hc⟩
  · intro k1 k2 hdec hno hidx
    subst hdec
    refine oneofInit_error_of_loop ?_
    rw [loop_skip k1 _ _ hno]
    exact loop_head_multiple_conflict hwf f1 v1 G k2 _ hm1 hidx
      f2 hne.symm hx (lookupAssoc_isSome_of_mem _ _ _ h2)

/-- Witness for C2: class `clsW` with both member keywords `a` and `b`. -/
theorem oneof_multiple_member_kwargs_conflict_witness :
    oneofInit clsW ([] : List Nat) [("a", 1), ("b", 2)] =
      .error (.multipleUnionKwargs "g") :=
  (oneof_multiple_member_kwargs_conflict clsW clsW_wf ([] : List Nat)
    [("a", 1), ("b", 2)] "a" 1 "b" 2 "g"
    (by decide) (by decide) (by decide) (by decide) (by decide)).2
    [] [("b", 2)] rfl (by simp) (by decide)

/-- C10: for every materialized type with a union group, supplying both the
group's own storage-slot name and one of the group's member field names as
keyword arguments of the same call fails at construction time with a
construction-time ConflictError (the member-conflict check treats the
group's own name as a conflicting key); when the member keyword is the
first union-member keyword of the call and the slot is not filled
positionally, the error is exactly the "multiple values for union group"
one. -/
theorem oneof_slot_and_member_kwarg_conflict (cls : OneofClass) (hwf : WF cls)
    (args : List V) (kwargs : List (String × V)) (f : String) (v : V)
    (G : String) (w : V)
    (hmem : (f, v) ∈ kwargs) (hf : mapsTo cls f G) (hG : (G, w) ∈ kwargs) :
    (∃ e, oneofInit cls args kwargs = .error e ∧ e.isUnionConflict = true) ∧
    (∀ k1 k2, kwargs = k1 ++ (f, v) :: k2 →
      (∀ p ∈ k1, ∀ H, ¬ mapsTo cls p.1 H) →
      ¬ idxOf cls.dataclassFields G < args.length →
      oneofInit cls args kwargs = .error (.multipleUnionKwargs G)) := by
  have hGf : G ≠ f := (hwf.memberNotSlot hf.1).symm
  constructor
  · obtain ⟨e, he, hc⟩ := loop_error_of_conflicted_member hwf kwargs ⟨[], [], []⟩ f v G
      hmem hf (Or.inr ⟨G, hGf, Or.inl rfl, lookupAssoc_isSome_of_mem _ _ _ hG⟩)
    exact ⟨e, oneofInit_error_of_loop he, hc⟩
  · intro k1 k2 hdec hno hidx
    subst hdec
    refine oneofInit_error_of_loop ?_
    rw [loop_skip k1 _ _ hno]
    exact loop_head_multiple_conflict hwf f v G k2 _ hf hidx
      G hGf (Or.inl rfl) (lookupAssoc_isSome_of_mem _ _ _ hG)

/-- Witness for C10: class `clsW` with member keyword `a` and slot keyword
`g` in the same call. -/
theorem oneof_slot_and_member_kwarg_conflict_witness :
    oneofInit clsW ([] : List Nat) [("a", 1), ("g", 5)] =
      .error (.multipleUnionKwargs "g") :=
  (oneof_slot_and_member_kwarg_conflict clsW clsW_wf ([] : List Nat)
    [("a", 1), ("g", 5)] "a" 1 "g" 5
    (by decide) (by decide) (by decide)).2 [] [("g", 5)] rfl (by simp) (by decide)

/-- C3: after a successful construction of a materialized type with union
groups, the instance records the active member per union group: if exactly
one keyword argument naming a member of group `G` was supplied, the
recorded discriminant for `G` is that member's field name and its value
sits in `G`'s single underlying storage slot; if no member of `G` was
supplied, the discriminant for `G` is unset. -/
theorem oneof_discriminant_routing (cls : OneofClass) (args : List V)
    (kwargs : List (String × V)) (inst : PyInstance V) (G : String)
    (hok : oneofInit cls args kwargs = .ok inst) :
    ((kwargs.map Prod.fst).Nodup →
      ∀ f v, (f, v) ∈ kwargs → mapsTo cls f G →
      (∀ p ∈ kwargs, mapsTo cls p.1 G → p.1 = f) →
      lookupAssoc inst.whichOneof G = some f ∧
      lookupAssoc inst.fields G = some (some v)) ∧
    ((∀ p ∈ kwargs, ¬ mapsTo cls p.1 G) → lookupAssoc inst.whichOneof G = none) := by
  obtain ⟨acc, hloop, horig, hwhich⟩ := oneofInit_ok_parts hok
  constructor
  · intro hnd f v hmem hf honly
    obtain ⟨k1, k2, hdec⟩ := List.append_of_mem hmem
    have hkeys : f ∉ k1.map Prod.fst ∧ f ∉ k2.map Prod.fst := by
      rw [hdec] at hnd
      simp only [List.map_append, List.map_cons] at hnd
      have hmid := List.nodup_middle.mp hnd
      have hout := (List.nodup_cons.mp hmid).1
      simp only [List.mem_append] at hout
      push_neg at hout
      exact hout
    have hno1 : ∀ p ∈ k1, ¬ mapsTo cls p.1 G := by
      intro p hp hmap
      have hpk : p ∈ kwargs := by
        rw [hdec]
        exact List.mem_append_left _ hp
      have : p.1 = f := honly p hpk hmap
      exact hkeys.1 (this ▸ List.mem_map_of_mem Prod.fst hp)
    have hno2 : ∀ p ∈ k2, ¬ mapsTo cls p.1 G := by
      intro p hp hmap
      have hpk : p ∈ kwargs := by
        rw [hdec]
        exact List.mem_append_right _ (List.mem_cons_of_mem _ hp)
      have : p.1 = f := honly p hpk hmap
      exact hkeys.2 (this ▸ List.mem_map_of_mem Prod.fst hp)
    have hroute := loop_routes_single_member hf k1 k2 ⟨[], [], []⟩ acc hno1 hno2
      (hdec ▸ hloop)
    have hnd' := loop_newKwargs_nodup kwargs ⟨[], [], []⟩ acc (by simp) hloop
    have hkw2 : lookupAssoc
        (pyDictUpdate (kwargs.filter fun p => decide (p.1 ∉ acc.toRemove)) acc.newKwargs)
        G = some v :=
      lookupAssoc_pyDictUpdate_mem _ _ _ _ hnd' hroute.2
    have hchecks := loop_ok_member_checks kwargs ⟨[], [], []⟩ acc f v G hloop hmem hf
    have hshape := originalInit_ok_shape horig
    constructor
    · rw [hwhich]
      exact hroute.1
    · rw [hshape, lookupAssoc_map_self, if_pos hchecks.1, initFieldValue,
        dif_neg hchecks.2, hkw2]
  · intro hno
    have hpres := loop_preserve_of_no_member kwargs ⟨[], [], []⟩ acc hno hloop
    rw [hwhich, hpres.1]
    rfl

/-- Witness for C3: constructing `clsW` with the single member keyword `a`
yields discriminant `a` for group `g` and routes the value into slot `g`. -/
theorem oneof_discriminant_routing_witness :
    lookupAssoc instW.whichOneof "g" = some "a" ∧
    lookupAssoc instW.fields "g" = some (some 1) :=
  (oneof_discriminant_routing clsW [] [("a", (1 : Nat))] instW "g" rfl).1
    (by decide) "a" 1 (by decide) (by decide)
    (by
      intro p hp hmap
      have : p = ("a", 1) := by simpa using hp
      rw [this])

theorem not_mem_keys_of_lookupAssoc_eq_none {α : Type} (m : List (String × α)) (k : String)
    (h : lookupAssoc m k = none) : k ∉ m.map Prod.fst := by
  induction m with
  | nil => simp
  | cons p rest ih =>
    obtain ⟨k0, v0⟩ := p
    by_cases h0 : k0 = k
    · subst h0
      simp [lookupAssoc] at h
    · simp only [lookupAssoc, if_neg h0] at h
      have hk : ¬ k = k0 := fun hc => h0 hc.symm
      simp [ih h, hk]

/-- C4 (code bug): `get_optional_field_names` classifies a field whose
declared type is a union of non-null types (here `Union[int, str]`) as
optional, even though `_is_python_optional` reports it is not nullable
(`some false`), because the caller tests `is not None` instead of
truthiness; the claim (and the function's own docstring, "has a
user-defined default or is marked as Optional[]") say such a field is
required. The third conjunct shows the undisputed cases behave as claimed:
a defaulted field and a nullable-wrapper field are optional, a plain
scalar field with no default is not. -/
theorem get_optional_field_names_nonnull_union_bug :
    get_optional_field_names
        { userDefinedDefaults := [], fields := [("f", .union ["int", "str"])] } = ["f"] ∧
    isPythonOptional (.union ["int", "str"]) = some false ∧
    get_optional_field_names
        { userDefinedDefaults := ["d"],
          fields := [("d", .plain "int"), ("o", .union ["int", "NoneType"]),
                     ("r", .plain "int")] } = ["d", "o"] := by
  decide

/-- C5: the `dataobject` decorator fails with the validation error (code
COR95184230E) exactly when the candidate type neither behaves as a
structured record (subclass of `DataObjectBase`) nor is an enumeration;
when the candidate satisfies the capability set, decoration succeeds and
returns the class. -/
theorem dataobject_capability_validation (cls : Candidate) (pkg : String) :
    (dataobjectDecorator pkg cls = .error (.validationError "COR95184230E") ↔
      ¬ (cls.isDataObjectBaseSubclass = true ∨ cls.isEnumSubclass = true)) ∧
    ((cls.isDataObjectBaseSubclass = true ∨ cls.isEnumSubclass = true) →
      dataobjectDecorator pkg cls = .ok cls) := by
  obtain ⟨b1, b2⟩ := cls
  cases b1 <;> cases b2 <;> simp [dataobjectDecorator]

/-- Witness for C5: a `DataObjectBase` subclass is decorated successfully. -/
theorem dataobject_capability_validation_witness :
    dataobjectDecorator "pkg" ⟨true, false⟩ = .ok ⟨true, false⟩ :=
  (dataobject_capability_validation ⟨true, false⟩ "pkg").2 (Or.inl rfl)

/-- C6 (counterexample): the claim that caller-supplied scalar type mappings
are overlaid on the built-in map fails: `int` is mapped by the built-in
map, but once a caller supplies any `type_mapping` (here one that only
maps `str`), the effective mapping used by the converter no longer
contains `int` at all — `setdefault` replaces the map wholesale instead of
overlaying. -/
theorem converter_type_mapping_no_overlay :
    lookupAssoc PY_TO_PROTO_TYPES "int" = some "TYPE_INT64" ∧
    lookupAssoc (dataobjectToProtoTypeMapping (some [("str", "TYPE_CUSTOM")])) "int" =
      none := by
  decide

/-- C6 (amended): when the caller supplies a scalar type mapping the
converter uses exactly that mapping (no overlay with the built-in map, so
caller entries trivially take precedence but built-in-only entries are
dropped); only when no mapping is supplied does the converter use the
module map, which consists of the caikit extension entries together with
the library's built-in entries (the library entries, spliced last into the
dict literal, would win a key conflict; entries present in only one of the
two maps are all retained there). -/
theorem converter_type_mapping_resolution :
    (∀ m, dataobjectToProtoTypeMapping (some m) = m) ∧
    dataobjectToProtoTypeMapping none = DATAOBJECT_PY_TO_PROTO_TYPES ∧
    (∀ k v, lookupAssoc PY_TO_PROTO_TYPES k = some v →
      lookupAssoc DATAOBJECT_PY_TO_PROTO_TYPES k = some v) ∧
    (∀ k v, lookupAssoc PY_TO_PROTO_TYPES k = none →
      lookupAssoc dataobjectExtensionEntries k = some v →
      lookupAssoc DATAOBJECT_PY_TO_PROTO_TYPES k = some v) := by
  refine ⟨fun m => rfl, rfl, ?_, ?_⟩
  · intro k v h
    exact lookupAssoc_pyDictUpdate_mem _ _ _ _ (by decide) h
  · intro k v hnone hsome
    rw [DATAOBJECT_PY_TO_PROTO_TYPES,
      lookupAssoc_pyDictUpdate_not_mem _ _ _ (not_mem_keys_of_lookupAssoc_eq_none _ _ hnone),
      hsome]

/-- Witness for C6 (amended): a caller mapping is used verbatim, and the
extension-only key `np.int32` survives into the module map. -/
theorem converter_type_mapping_resolution_witness :
    dataobjectToProtoTypeMapping (some [("str", "TYPE_CUSTOM")]) = [("str", "TYPE_CUSTOM")] ∧
    lookupAssoc DATAOBJECT_PY_TO_PROTO_TYPES "np.int32" = some "TYPE_INT32" :=
  ⟨converter_type_mapping_resolution.1 _,
   converter_type_mapping_resolution.2.2.2 "np.int32" "TYPE_INT32" (by decide) (by decide)⟩

/-- C7: `render_dataobject_protos` raises on every call, before writing any
file or consulting the registry of generated proto classes: the result is
the same error for every input directory and every registry state. -/
theorem render_dataobject_protos_always_raises (dir : String) (reg reg' : List String) :
    render_dataobject_protos dir reg =
      .error "render_dataobject_protos not yet implemented" ∧
    render_dataobject_protos dir reg = render_dataobject_protos dir reg' :=
  ⟨rfl, rfl⟩

/-- C8: when `dataobject` is applied bare to a class or called with no
package argument, the package used is the fixed root namespace
`caikit_data_model`; a package supplied positionally or as the `package`
keyword is used instead. -/
theorem dataobject_package_defaulting (c : Candidate) (s : String) :
    dataobjectPackage [PyArg.cls c] none = .ok CAIKIT_DATA_MODEL ∧
    dataobjectPackage ([] : List (PyArg Candidate)) none = .ok CAIKIT_DATA_MODEL ∧
    dataobjectPackage ([PyArg.str s] : List (PyArg Candidate)) none = .ok s ∧
    dataobjectPackage ([] : List (PyArg Candidate)) (some s) = .ok s ∧
    CAIKIT_DATA_MODEL = "caikit_data_model" :=
  ⟨rfl, rfl, rfl, rfl, rfl⟩

/-- C9: applying the `dataobject` decorator to a valid type returns the very
class it was given, so re-applying the decorator to an already-decorated
type is a no-op producing the same result as the first application. -/
theorem dataobject_decorator_idempotent (cls : Candidate) (pkg pkg' : String)
    (hcap : cls.isDataObjectBaseSubclass = true ∨ cls.isEnumSubclass = true) :
    dataobjectDecorator pkg cls = .ok cls ∧
    (dataobjectDecorator pkg cls).bind (dataobjectDecorator pkg') =
      dataobjectDecorator pkg cls := by
  have hpos : (cls.isDataObjectBaseSubclass || cls.isEnumSubclass) = true := by
    rcases hcap with h | h <;> simp [h]
  have h : dataobjectDecorator pkg cls = .ok cls := by
    rw [dataobjectDecorator, if_pos hpos]
  have h' : dataobjectDecorator pkg' cls = .ok cls := by
    rw [dataobjectDecorator, if_pos hpos]
  refine ⟨h, ?_⟩
  rw [h]
  show dataobjectDecorator pkg' cls = Except.ok cls
  exact h'

/-- Witness for C9 at a concrete enum candidate. -/
theorem dataobject_decorator_idempotent_witness :
    (dataobjectDecorator "p" ⟨false, true⟩).bind (dataobjectDecorator "p") =
      dataobjectDecorator "p" ⟨false, true⟩ :=
  (dataobject_decorator_idempotent ⟨false, true⟩ "p" "p" (Or.inr rfl)).2

end CaikitDataobject
